import Mathlib

/-
Verification development for the fortune-json-api serializer.

The definitions below are a shallow embedding of lib/helpers.js and
lib/index.js: JavaScript numbers are modelled as exact rationals (the
claims under study do not depend on IEEE-754 rounding), strings as Lean
strings, JSON null/undefined as Option, and thrown errors as Except /
explicit error results.  Each definition's doc comment names the source
function it embeds.
-/

set_option autoImplicit false

namespace FortuneJsonApi

/-- A JavaScript identifier value as it appears on the wire or in a record:
either a number (modelled exactly as a rational) or a string. -/
inductive JSVal where
  | num (q : ℚ)
  | str (s : String)
deriving DecidableEq, Repr

/-- The whitespace characters recognised while trimming in the JS
number-conversion functions (space, tab, line feed, carriage return). -/
def wsChar (c : Char) : Bool :=
  c = ' ' || c = '\t' || c = '\n' || c = '\r'

/-- Drop leading whitespace. -/
def skipWs : List Char → List Char
  | [] => []
  | c :: t => if wsChar c then skipWs t else c :: t

/-- Split off the longest run of leading decimal digits. -/
def takeDigits : List Char → List Char × List Char
  | [] => ([], [])
  | c :: t =>
    if Char.isDigit c then
      let r := takeDigits t
      (c :: r.1, r.2)
    else ([], c :: t)

/-- Numeric value of a decimal digit character. -/
def digitVal (c : Char) : ℕ := c.toNat - 48

/-- Value of a list of decimal digits, most significant digit first. -/
def digitsVal (ds : List Char) : ℕ :=
  ds.foldl (fun n c => 10 * n + digitVal c) 0

/-- Optional leading sign, as a rational factor. -/
def parseSign : List Char → ℚ × List Char
  | '+' :: t => (1, t)
  | '-' :: t => (-1, t)
  | t => (1, t)

/-- Optional leading sign, as an integer factor. -/
def parseSignInt : List Char → ℤ × List Char
  | '+' :: t => (1, t)
  | '-' :: t => (-1, t)
  | t => (1, t)

/-- Ten to an integer power, as a rational. -/
def pow10 (z : ℤ) : ℚ :=
  if 0 ≤ z then ((10 ^ z.toNat : ℕ) : ℚ) else 1 / ((10 ^ (-z).toNat : ℕ) : ℚ)

/-- Optional exponent part of a JS decimal literal.  The marker e/E is
consumed only when at least one digit follows it, as in the JS grammar
(a bare trailing marker is not part of the literal). -/
def parseExponent (cs : List Char) : ℤ × List Char :=
  match cs with
  | c :: t =>
    if c = 'e' || c = 'E' then
      let st := parseSignInt t
      match takeDigits st.2 with
      | ([], _) => (0, cs)
      | (ds, rest) => (st.1 * (digitsVal ds : ℤ), rest)
    else (0, cs)
  | [] => (0, [])

/-- Longest-prefix parse of a JS decimal numeric literal: optional sign,
integer digits, optional fraction, optional exponent.  Returns the exact
value and the unconsumed rest, or none when no digits are present.  This is
the core shared by parseFloat (prefix match after whitespace skipping) and
by string-to-number coercion (whole-string match). -/
def parseDecCore (cs : List Char) : Option (ℚ × List Char) :=
  let sg := parseSign cs
  let ip := takeDigits sg.2
  let fp :=
    match ip.2 with
    | c :: t => if c = '.' then takeDigits t else ([], c :: t)
    | [] => (([] : List Char), ([] : List Char))
  if ip.1.isEmpty && fp.1.isEmpty then none
  else
    let mant : ℚ := (digitsVal ip.1 : ℚ) + (digitsVal fp.1 : ℚ) / 10 ^ fp.1.length
    let ex := parseExponent fp.2
    some (sg.1 * (mant * pow10 ex.1), ex.2)

/-- The result of a JS string-to-number conversion: a finite double, one of
the two infinities, or NaN.  A finite double is carried as the exact value
of the parsed literal: IEEE-754 rounding to the nearest double is not
applied.  This is sound for every comparison castId performs, because there
a finite conversion result is only ever compared against itself (both
conversions parsed the same literal, so they denote the same double and
the exact difference 0 equals the floating-point difference) or against
the value 0 of the decimal prefix of a non-decimal literal (both sides
exact).  Overflow to an infinity, which castId does observe, is modelled
exactly (see doubleMax). -/
inductive JNum where
  | fin (q : ℚ)
  | inf (neg : Bool)
  | nan
deriving DecidableEq, Repr

/-- The smallest magnitude that rounds to an IEEE-754 double Infinity:
half-way between the largest finite double (2^1024 - 2^971) and 2^1024,
rounded up to Infinity by round-half-to-even. -/
def doubleMax : ℚ := 2 ^ (1024 : ℕ) - 2 ^ (970 : ℕ)

/-- Classify an exactly-parsed literal value as a double conversion result:
values at or beyond the overflow threshold become the infinities. -/
def toJNum (q : ℚ) : JNum :=
  if doubleMax ≤ q then .inf false
  else if q ≤ -doubleMax then .inf true
  else .fin q

/-- Match an expected character sequence against the head of the input,
returning the rest of the input on success. -/
def matchChars : List Char → List Char → Option (List Char)
  | [], cs => some cs
  | _ :: _, [] => none
  | e :: es, c :: cs => if c = e then matchChars es cs else none

/-- The Infinity production of the JS numeric grammars: an optional sign
followed by the keyword Infinity; returns its sign and the rest. -/
def parseInfinityLit (cs : List Char) : Option (Bool × List Char) :=
  let sg := parseSign cs
  match matchChars ['I', 'n', 'f', 'i', 'n', 'i', 't', 'y'] sg.2 with
  | some rest => some (decide (sg.1 = -1), rest)
  | none => none

/-- Digit test for the non-decimal integer literal radices 16, 8 and 2. -/
def isRadixDigit (r : ℕ) (c : Char) : Bool :=
  if r = 16 then c.isDigit || ('a' ≤ c && c ≤ 'f') || ('A' ≤ c && c ≤ 'F')
  else if r = 8 then '0' ≤ c && c ≤ '7'
  else c = '0' || c = '1'

/-- Value of a hexadecimal digit character (falls back to the decimal
value for 0-9). -/
def radixDigitVal (c : Char) : ℕ :=
  if 'a' ≤ c then c.toNat - 87
  else if 'A' ≤ c then c.toNat - 55
  else c.toNat - 48

/-- Split off the longest run of leading digits of the given radix. -/
def takeRadixDigits (r : ℕ) : List Char → List Char × List Char
  | [] => ([], [])
  | c :: t =>
    if isRadixDigit r c then
      let w := takeRadixDigits r t
      (c :: w.1, w.2)
    else ([], c :: t)

/-- Value of a digit list in the given radix, most significant first. -/
def radixVal (r : ℕ) (ds : List Char) : ℕ :=
  ds.foldl (fun n c => r * n + radixDigitVal c) 0

/-- The NonDecimalIntegerLiteral production of the string-to-number
grammar: 0x/0X, 0o/0O or 0b/0B followed by at least one digit of the
radix (no sign allowed); returns the value and the rest of the input. -/
def parseNonDecimalCore (cs : List Char) : Option (ℕ × List Char) :=
  match cs with
  | c :: x :: rest =>
    if c = '0' then
      let radix : Option ℕ :=
        if x = 'x' || x = 'X' then some 16
        else if x = 'o' || x = 'O' then some 8
        else if x = 'b' || x = 'B' then some 2
        else none
      match radix with
      | some r =>
        match takeRadixDigits r rest with
        | ([], _) => none
        | (ds, rest2) => some (radixVal r ds, rest2)
      | none => none
    else none
  | _ => none

/-- Number.parseFloat: skip leading whitespace, then the longest prefix
that is a signed Infinity keyword or a decimal literal; the rest of the
string is ignored and NaN is returned when no prefix matches.  parseFloat
has no non-decimal forms, so on a hex literal such as 0x10 it parses the
decimal prefix 0. -/
def jsParseFloat (s : String) : JNum :=
  let t := skipWs s.data
  match parseInfinityLit t with
  | some (neg, _) => .inf neg
  | none =>
    match parseDecCore t with
    | some (q, _) => toJNum q
    | none => .nan

/-- Implicit string-to-number coercion (ToNumber): the whole trimmed string
must be a signed Infinity keyword, a non-decimal integer literal (hex,
octal, binary), or a decimal literal; the empty or whitespace-only string
converts to 0, anything else to NaN. -/
def jsToNumber (s : String) : JNum :=
  let t := skipWs s.data
  if t.isEmpty then .fin 0
  else
    match parseInfinityLit t with
    | some (neg, rest) => if rest.all wsChar then .inf neg else .nan
    | none =>
      match parseNonDecimalCore t with
      | some (n, rest) => if rest.all wsChar then toJNum (n : ℚ) else .nan
      | none =>
        match parseDecCore t with
        | some (q, rest) => if rest.all wsChar then toJNum q else .nan
        | none => .nan

/-- The value of a wire identifier that is exactly a finite decimal numeral
(possibly surrounded by whitespace), and none for any other string.  This
states the condition of the identifier-coercion sentence of the spec. -/
def decimalNum (s : String) : Option ℚ :=
  match parseDecCore (skipWs s.data) with
  | some (q, rest) =>
    if rest.all wsChar then
      match toJNum q with
      | .fin _ => some q
      | _ => none
    else none
  | none => none

/-- The value of a wire identifier that is exactly a non-decimal integer
literal (hex, octal or binary, possibly surrounded by whitespace), and
none for any other string. -/
def nonDecimalNum (s : String) : Option ℕ :=
  match parseNonDecimalCore (skipWs s.data) with
  | some (n, rest) => if rest.all wsChar then some n else none
  | none => none

/-- The comparison id - float + 1 >= 0 of castId under the JS extended
arithmetic: any NaN operand makes it false, an infinite minus an equally
infinite operand is NaN (false), an infinite left or negated-infinite
right operand dominates, and two finite operands compare exactly (sound
here, see JNum). -/
def castTest : JNum → JNum → Bool
  | .nan, _ => false
  | _, .nan => false
  | .fin a, .fin b => decide (0 ≤ a - b + 1)
  | .fin _, .inf false => false
  | .fin _, .inf true => true
  | .inf false, .inf false => false
  | .inf false, _ => true
  | .inf true, _ => false

/-- lib/helpers.js castId:
  const float = Number.parseFloat(id)
  return id - float + 1 >= 0 ? float : id
On a number input the subtraction compares the number with itself, so the
input comes back unchanged either way.  On a string input the subtraction
coerces the string through ToNumber, so the returned value is parseFloat's
when ToNumber(id) - parseFloat(id) + 1 >= 0 under the extended arithmetic
and the unchanged string otherwise.  The test only ever passes with a
non-finite parseFloat result when that would also make it fail (such a
string starts with a signed Infinity keyword or an overflowing decimal
literal, so ToNumber gives NaN or the same infinity), so the fallback arm
below is not reachable. -/
def castId : JSVal → JSVal
  | .num n => .num n
  | .str s =>
    if castTest (jsToNumber s) (jsParseFloat s) then
      match jsParseFloat s with
      | .fin q => .num q
      | _ => .str s
    else .str s

/-- Number.parseInt with radix 10: skip leading whitespace, optional sign,
longest run of decimal digits; none (NaN) when no digit is present. -/
def jsParseInt (s : String) : Option ℤ :=
  let sg := parseSignInt (skipWs s.data)
  match takeDigits sg.2 with
  | ([], _) => none
  | (ds, _) => some (sg.1 * (digitsVal ds : ℤ))

/-- Math.abs(Number.parseInt(s, 10)) as the query parser applies it to
page[offset] and page[limit]; none stands for NaN. -/
def absParseInt (s : String) : Option ℕ :=
  (jsParseInt s).map Int.natAbs

/-- The limit check at the end of attachQueries (lib/helpers.js):
  const limit = request.options.limit
  if (!limit || limit > maxLimit) request.options.limit = maxLimit
The outer Option is an absent page[limit] key, the inner one a NaN parse;
both are falsy, as is an explicit 0. -/
def checkLimit (maxLimit : ℕ) (raw : Option (Option ℕ)) : ℕ :=
  match raw with
  | some (some n) => if n = 0 || maxLimit < n then maxLimit else n
  | _ => maxLimit

/-- Pagination options as attachQueries leaves them on the request:
offset is absent when page[offset] was absent (inner none: NaN parse),
limit is always a number after the final check. -/
structure PageOpts where
  offset : Option (Option ℕ)
  limit : ℕ
deriving DecidableEq, Repr

/-- The page[offset] / page[limit] fragment of attachQueries
(lib/helpers.js): each key, when present, is stored as the absolute value
of its radix-10 integer parse, and the limit is then checked against
maxLimit. -/
def attachPage (maxLimit : ℕ) (qOffset qLimit : Option String) : PageOpts :=
  { offset := qOffset.map absParseInt
    limit := checkLimit maxLimit (qLimit.map absParseInt) }

/-- The four store operations GET, POST, PATCH and DELETE map to. -/
inductive Method where
  | find | create | update | delete
deriving DecidableEq, Repr

/-- A store record, reduced to its primary identifier: the claims about
response shaping depend only on how many records there are and which
record each serialized node came from, so mapRecord is modelled as the
identity on these and a node is represented by its record. -/
structure Record where
  id : JSVal
deriving DecidableEq, Repr

/-- The effective offset, (offset || 0) in showResponse: an absent or NaN
offset option counts as 0. -/
def offsetOrZero : Option (Option ℕ) → ℕ
  | some (some n) => n
  | _ => 0

/-- The four top-level pagination links of a collection document.  Each
present link carries the page[offset] value written into its URI; the
URI text around it is not modelled. -/
structure PageLinks where
  first : Option ℤ
  last : Option ℤ
  next : Option ℤ
  prev : Option ℤ
deriving DecidableEq, Repr

/-- No pagination links emitted. -/
def PageLinks.empty : PageLinks := ⟨none, none, none, none⟩

/-- The shape of the top-level data member of a document: never set, a
single resource object, an array of resource objects, or JSON null. -/
inductive DataMember where
  | unset
  | one (r : Record)
  | many (rs : List Record)
  | nullData
deriving DecidableEq, Repr

/-- The observable structure of a non-relationship response document. -/
structure OutDoc where
  data : DataMember
  metaCount : Option ℕ
  links : PageLinks
  hasSelfLink : Bool
  hasLocation : Bool
deriving DecidableEq, Repr

/-- The observable structure of a relationship-entity document: its data
member holds resource identifier objects, one per related record. -/
structure RelDoc where
  data : DataMember
deriving DecidableEq, Repr

/-- The error kinds the embedded functions can raise.  typeError stands for
a JS TypeError thrown by calling a method on null/undefined or mapping a
non-array, which the serializer does not catch. -/
inductive JErr where
  | badRequest | notFound | methodError | conflict | typeError
deriving DecidableEq, Repr

/-- Result of formatting a response: a thrown error, a response whose
payload was deleted, a document, or a relationship document. -/
inductive ShowResult where
  | err (e : JErr)
  | noPayload
  | doc (d : OutDoc)
  | relDoc (d : RelDoc)
deriving DecidableEq, Repr

/-- The request metadata showResponse reads (request.meta in lib/index.js):
ids is null or the castId-mapped route identifier list; relatedField,
relationship, originalType and originalIds are set by the related-field
traversal; registryIsArray is the registry lookup
recordTypes[originalType][relatedField].isArray; updateModified is the
store's report on an update. -/
structure ShowCtx where
  method : Method
  ids : Option (List JSVal)
  relatedField : Option String
  relationship : Bool
  originalType : Option String
  registryIsArray : Bool
  originalIds : List JSVal
  options : PageOpts
  updateModified : Bool
deriving DecidableEq, Repr

/-- ids is non-null and non-empty (the truthiness test ids && ids.length). -/
def idsPresent : Option (List JSVal) → Bool
  | some (_ :: _) => true
  | _ => false

/-- ids is non-null with exactly one element (ids && ids.length === 1). -/
def idsCount1 : Option (List JSVal) → Bool
  | some l => l.length == 1
  | none => false

/-- lib/index.js showRelationship: rejects several owning records, returns
no payload for a non-find method, and otherwise builds the relationship
document whose data is the identifier array for a to-many link, or the
single identifier or null for a to-one link. -/
def showRelationship (ctx : ShowCtx) (records : List Record) : ShowResult :=
  if 1 < ctx.originalIds.length then .err .badRequest
  else if !decide (ctx.method = Method.find) then .noPayload
  else
    .relDoc ⟨if ctx.registryIsArray then .many records
             else
               match records with
               | [] => .nullData
               | r :: _ => .one r⟩

/-- lib/index.js showResponse: relationship routes delegate to
showRelationship; a find for explicit ids with no match is not-found;
delete and unmodified update responses lose their payload; a collection
find gets meta.count and, when count exceeds the limit, pagination links
(next only when limit + offset < count, prev only when offset >= limit);
a non-empty record set becomes the data array and collapses to a single
object when (no traversal, or a to-one traversal) and (exactly one route
id, or a create of exactly one record); an empty traversal result becomes
an empty array or null by link arity.  The count argument is the store's
records.count property, undefined except on collection finds. -/
def showResponse (ctx : ShowCtx) (records : List Record) (count : Option ℕ) :
    ShowResult :=
  if ctx.relationship then showRelationship ctx records
  else if idsPresent ctx.ids && decide (ctx.method = Method.find) &&
      ctx.relatedField.isNone && records.isEmpty then
    .err .notFound
  else if decide (ctx.method = Method.delete) ||
      (decide (ctx.method = Method.update) && !ctx.updateModified) then
    .noPayload
  else
    let limit := ctx.options.limit
    let offset := offsetOrZero ctx.options.offset
    let isColl := ctx.ids.isNone && decide (ctx.method = Method.find)
    let metaCount := if isColl then count else none
    let pageLinks : PageLinks :=
      if isColl then
        match count with
        | some c =>
          if limit < c then
            { first := some 0
              last := some ((((c - 1) / limit) * limit : ℕ) : ℤ)
              next := if limit + offset < c then
                  some (((offset / limit + 1) * limit : ℕ) : ℤ)
                else none
              prev := if limit ≤ offset then
                  some ((((offset / limit : ℕ) : ℤ) - 1) * (limit : ℤ))
                else none }
          else PageLinks.empty
        | none => PageLinks.empty
      else PageLinks.empty
    let links := if ctx.relatedField.isSome then PageLinks.empty else pageLinks
    let collapse :=
      (ctx.originalType.isNone || !ctx.registryIsArray) &&
      (idsCount1 ctx.ids ||
        (decide (ctx.method = Method.create) && records.length == 1))
    let data :=
      match records with
      | r :: rs => if collapse then DataMember.one r else DataMember.many (r :: rs)
      | [] =>
        if ctx.relatedField.isSome then
          (if ctx.registryIsArray then DataMember.many [] else DataMember.nullData)
        else if isColl then DataMember.many [] else DataMember.unset
    .doc { data := data
           metaCount := metaCount
           links := links
           hasSelfLink := isColl || (!records.isEmpty && ctx.ids.isSome) ||
             ctx.relatedField.isSome
           hasLocation := !records.isEmpty && decide (ctx.method = Method.create) }

/-- A resource identifier object of a relationship payload: the type and id
members, each possibly missing. -/
structure LinkObj where
  type : Option String
  id : Option JSVal
deriving DecidableEq, Repr

/-- The data member of a relationship update payload: a single identifier
object, an array of them, or JSON null. -/
inductive PayloadData where
  | objData (o : LinkObj)
  | arrData (os : List LinkObj)
  | nullData
deriving DecidableEq, Repr

/-- The operation key of a relationship update. -/
inductive RelOp where
  | push | pull | replace
deriving DecidableEq, Repr

/-- The value written under the relationship field: the full identifier
list for a to-many link, the single identifier for a to-one link. -/
inductive RelTarget where
  | many (ids : List JSVal)
  | one (i : JSVal)
deriving DecidableEq, Repr

/-- One update record handed to the store: id is originalIds[0] (none for
the out-of-route undefined). -/
structure RelUpdate where
  id : Option JSVal
  op : RelOp
  field : String
  target : RelTarget
deriving DecidableEq, Repr

/-- The request state updateRelationship reads (lib/index.js): the routed
(related) type, the relationship field, the POST/DELETE remap marker
originalMethod, the owning identifiers, and the link arity from the
registry.  nt is the inbound type-name normalization (the inflectType
transform with its lower-case fallback; the identity when inflection is
off). -/
structure RelUpdCtx where
  payloadData : PayloadData
  type : String
  relatedField : String
  originalMethod : Option Method
  originalIds : List JSVal
  isArray : Bool
deriving DecidableEq, Repr

/-- The element-wise mapping over the payload identifiers inside
updateRelationship: each object must carry the routed type (after
normalization) and an id member, and contributes its castId-coerced id. -/
def castLinkIds (nt : String → String) (t : String) :
    List LinkObj → Except JErr (List JSVal)
  | [] => .ok []
  | o :: os =>
    match o.type with
    | none => .error .conflict
    | some u =>
      if nt u = t then
        match o.id with
        | none => .error .badRequest
        | some i => (castLinkIds nt t os).map (fun rest => castId i :: rest)
      else .error .conflict

/-- lib/index.js updateRelationship: not-found for several owning records;
method error for an implied push/pull on a to-one link; bad-request for an
array payload on a to-one link; a TypeError (uncaught) for a null payload
or a non-array payload on a to-many link; otherwise one update whose
operation is push for the POST remap, pull for the DELETE remap and
replace for PATCH. -/
def updateRelationship (nt : String → String) (ctx : RelUpdCtx) :
    Except JErr (List RelUpdate) :=
  if 1 < ctx.originalIds.length then .error .notFound
  else if !ctx.isArray && ctx.originalMethod.isSome then .error .methodError
  else
    let op : RelOp :=
      match ctx.originalMethod with
      | some Method.create => .push
      | some _ => .pull
      | none => .replace
    match ctx.isArray, ctx.payloadData with
    | false, .arrData _ => .error .badRequest
    | false, .objData o =>
      (castLinkIds nt ctx.type [o]).map fun ids =>
        [{ id := ctx.originalIds.head?, op := op, field := ctx.relatedField,
           target := .one (ids.headD (JSVal.str "")) }]
    | false, .nullData => .error .typeError
    | true, .arrData os =>
      (castLinkIds nt ctx.type os).map fun ids =>
        [{ id := ctx.originalIds.head?, op := op, field := ctx.relatedField,
           target := .many ids }]
    | true, _ => .error .typeError

/-- JS String.prototype.split with a one-character separator: the empty
string splits to one empty field, and separators delimit fields. -/
def splitOnChar (sep : Char) : List Char → List (List Char)
  | [] => [[]]
  | c :: t =>
    let r := splitOnChar sep t
    if c = sep then [] :: r
    else
      match r with
      | h :: t2 => (c :: h) :: t2
      | [] => [[c]]

/-- String.prototype.split on a single-character separator. -/
def jsSplit (sep : Char) (s : String) : List String :=
  (splitOnChar sep s.data).map (fun cs => String.mk cs)

/-- String.prototype.trim on the modelled whitespace characters. -/
def jsTrim (s : String) : String :=
  String.mk ((skipWs (skipWs s.data).reverse).reverse)

/-- ASCII lower-casing of a string, for a case-insensitive comparison. -/
def lowerAscii (s : String) : String :=
  String.mk (s.data.map Char.toLower)

/-- The bool helper of lib/helpers.js on a string query value:
/^(true|t|yes|y|1)$/i applied to the trimmed value. -/
def jsBool (s : String) : Bool :=
  let t := lowerAscii (jsTrim s)
  t = "true" || t = "t" || t = "yes" || t = "y" || t = "1"

/-- A filter query key as the inBrackets regular expression decomposes it:
filter[field] or filter[field][modifier]. -/
structure FilterKey where
  field : String
  modifier : Option String
deriving DecidableEq, Repr

/-- What one filter key contributes to the request options: an
equality/membership match list, an existence flag, or one bound of a
range.  V is the abstract result type of the host's castValue. -/
inductive FilterAction (V : Type) where
  | matchF (field : String) (values : List V)
  | existsF (field : String) (b : Bool)
  | rangeMin (field : String) (v : V)
  | rangeMax (field : String) (v : V)

/-- The filter branch of attachQueries (lib/helpers.js): the field name is
re-cased by the key inflection, must be declared in the routed type's
field definition (else bad-request), and the bracketed modifier must be
absent, exists, min or max (else bad-request); match values are the
comma-split value list element-wise through castValue, a range bound is
the raw value through castValue. -/
def parseFilterKey {V : Type} (inflect : String → String)
    (declared : List String) (castValue : String → V) (k : FilterKey)
    (value : String) : Except JErr (FilterAction V) :=
  let field := inflect k.field
  if field ∈ declared then
    match k.modifier with
    | none => .ok (.matchF field ((jsSplit ',' value).map castValue))
    | some m =>
      if m = "exists" then .ok (.existsF field (jsBool value))
      else if m = "min" then .ok (.rangeMin field (castValue value))
      else if m = "max" then .ok (.rangeMax field (castValue value))
      else .error .badRequest
  else .error .badRequest

/-- The include paths as first parsed (lib/helpers.js attachQueries): the
comma-split include value, each path dot-split, segment-wise key-inflected,
and truncated to the include depth limit. -/
def includeInit (inflect : String → String) (includeLimit : ℕ) (s : String) :
    List (List String) :=
  (jsSplit ',' s).map
    (fun i => ((jsSplit '.' i).map inflect).take includeLimit)

/-- The inner loop of the nested-include expansion: for i from
path.length - 1 down to 1, the slice path.slice(0, i) is appended to the
array unless an equal path is already present (deep-equal comparison). -/
def expandNested (p : List String) : ℕ → List (List String) → List (List String)
  | 0, arr => arr
  | i + 1, arr =>
    let j := p.take (i + 1)
    expandNested p i (if j ∈ arr then arr else arr ++ [j])

/-- The outer for..of loop of the nested-include expansion, which also
visits the elements pushed while it runs; the fuel argument only bounds
the iteration count (each step consumes one array element, and a path of
length L can push at most L - 1 new elements, so the initial length plus
the total length of the initial paths is enough for every input). -/
def includeLoop : ℕ → List (List String) → ℕ → List (List String)
  | 0, arr, _ => arr
  | fuel + 1, arr, idx =>
    match arr[idx]? with
    | some p => includeLoop fuel (expandNested p (p.length - 1) arr) (idx + 1)
    | none => arr

/-- The include option of attachQueries (lib/helpers.js): the parsed paths
followed by the nested-include expansion of every strict ancestor path. -/
def attachInclude (inflect : String → String) (includeLimit : ℕ) (s : String) :
    List (List String) :=
  let init := includeInit inflect includeLimit s
  includeLoop (init.length + (init.map List.length).sum) init 0

/-- A concrete collection-find request state, for evaluating the theorems
at an input. -/
def collCtx : ShowCtx :=
  { method := Method.find, ids := none, relatedField := none,
    relationship := false, originalType := none, registryIsArray := false,
    originalIds := [], options := { offset := some (some 10), limit := 5 },
    updateModified := true }

/-- A concrete single-identifier find request state. -/
def singleCtx : ShowCtx :=
  { method := Method.find, ids := some [JSVal.num 1], relatedField := none,
    relationship := false, originalType := none, registryIsArray := false,
    originalIds := [], options := { offset := none, limit := 1000 },
    updateModified := true }

/-- A concrete relationship-entity update request state (a PATCH). -/
def relPatchCtx : ShowCtx :=
  { method := Method.update, ids := some [JSVal.num 3],
    relatedField := some "spouse", relationship := true,
    originalType := some "user", registryIsArray := false,
    originalIds := [JSVal.num 2],
    options := { offset := none, limit := 1000 }, updateModified := true }

/-- A concrete relationship-entity update arrived through the POST remap on
a to-one link field. -/
def relPushCtx : RelUpdCtx :=
  { payloadData := PayloadData.objData { type := some "user", id := some (JSVal.num 3) },
    type := "user", relatedField := "spouse",
    originalMethod := some Method.create, originalIds := [JSVal.num 2],
    isArray := false }

theorem parseDecCore_nil : parseDecCore [] = none := rfl

theorem skipWs_not_nil_of_parse {cs : List Char} {pr : ℚ × List Char}
    (h : parseDecCore cs = some pr) : cs.isEmpty = false := by
  cases cs with
  | nil => rw [parseDecCore_nil] at h; exact absurd h (by simp)
  | cons a t => rfl

theorem toJNum_fin_inv {q x : ℚ} (h : toJNum q = JNum.fin x) : x = q := by
  unfold toJNum at h
  split_ifs at h
  simp_all

theorem matchChars_cons_inv {e : Char} {es cs r : List Char}
    (h : matchChars (e :: es) cs = some r) :
    ∃ cs2, cs = e :: cs2 ∧ matchChars es cs2 = some r := by
  cases cs with
  | nil => simp [matchChars] at h
  | cons c cs2 =>
    by_cases hc : c = e
    · subst hc
      exact ⟨cs2, rfl, by simpa [matchChars] using h⟩
    · simp [matchChars, hc] at h

theorem parseDecCore_none_of_infinity {t : List Char} {pr : Bool × List Char}
    (h : parseInfinityLit t = some pr) : parseDecCore t = none := by
  simp only [parseInfinityLit] at h
  cases hm : matchChars ['I', 'n', 'f', 'i', 'n', 'i', 't', 'y']
      (parseSign t).2 with
  | none => rw [hm] at h; simp at h
  | some rest =>
    obtain ⟨cs2, hcs, _⟩ := matchChars_cons_inv hm
    simp +decide [parseDecCore, hcs, takeDigits]

theorem parseNonDecimalCore_shape {t : List Char} {pr : ℕ × List Char}
    (h : parseNonDecimalCore t = some pr) :
    ∃ x u, t = '0' :: x :: u ∧ wsChar x = false ∧ Char.isDigit x = false ∧
      x ≠ '.' ∧ x ≠ 'e' ∧ x ≠ 'E' := by
  cases t with
  | nil => simp [parseNonDecimalCore] at h
  | cons c u0 =>
    cases u0 with
    | nil => simp [parseNonDecimalCore] at h
    | cons x u =>
      by_cases hc : c = '0'
      · subst hc
        refine ⟨x, u, rfl, ?_⟩
        by_cases h16 : x = 'x' ∨ x = 'X'
        · rcases h16 with rfl | rfl <;>
            exact ⟨by decide, by decide, by decide, by decide, by decide⟩
        · by_cases h8 : x = 'o' ∨ x = 'O'
          · rcases h8 with rfl | rfl <;>
              exact ⟨by decide, by decide, by decide, by decide, by decide⟩
          · by_cases h2 : x = 'b' ∨ x = 'B'
            · rcases h2 with rfl | rfl <;>
                exact ⟨by decide, by decide, by decide, by decide, by decide⟩
            · exfalso
              push_neg at h16 h8 h2
              simp [parseNonDecimalCore, h16.1, h16.2, h8.1, h8.2,
                h2.1, h2.2] at h
      · simp [parseNonDecimalCore, hc] at h

theorem parseDecCore_zeroX {x : Char} {u : List Char}
    (hd : Char.isDigit x = false) (hdot : x ≠ '.') (hee : x ≠ 'e')
    (hE : x ≠ 'E') : parseDecCore ('0' :: x :: u) = some (0, x :: u) := by
  have h1 : parseSign ('0' :: x :: u) = (1, '0' :: x :: u) := rfl
  have h3 : takeDigits ('0' :: x :: u) = (['0'], x :: u) := by
    simp +decide [takeDigits, hd]
  have h4 : parseExponent (x :: u) = (0, x :: u) := by
    simp [parseExponent, hee, hE]
  simp +decide [parseDecCore, h1, h3, hdot, h4, digitsVal, digitVal, pow10]

theorem parseInfinityLit_zero (w : List Char) :
    parseInfinityLit ('0' :: w) = none := by
  simp +decide [parseInfinityLit, parseSign, matchChars]

theorem castId_of_decimalNum {s : String} {q : ℚ}
    (h : decimalNum s = some q) : castId (JSVal.str s) = JSVal.num q := by
  unfold decimalNum at h
  cases hp : parseDecCore (skipWs s.data) with
  | none => rw [hp] at h; simp at h
  | some pr =>
    obtain ⟨q2, rest⟩ := pr
    rw [hp] at h
    cases hall : rest.all wsChar with
    | false => simp [hall] at h
    | true =>
      simp only [hall, if_true] at h
      cases htj : toJNum q2 with
      | fin x =>
        rw [htj] at h
        simp at h
        subst h
        have hxq : x = q2 := toJNum_fin_inv htj
        have hinf : parseInfinityLit (skipWs s.data) = none := by
          cases hi : parseInfinityLit (skipWs s.data) with
          | none => rfl
          | some pr2 =>
            rw [parseDecCore_none_of_infinity hi] at hp
            exact absurd hp (by simp)
        have hnd : parseNonDecimalCore (skipWs s.data) = none := by
          cases hnd0 : parseNonDecimalCore (skipWs s.data) with
          | none => rfl
          | some pr3 =>
            obtain ⟨x0, u, hteq, hws, hdig, hdot, he1, he2⟩ :=
              parseNonDecimalCore_shape hnd0
            rw [hteq, parseDecCore_zeroX hdig hdot he1 he2] at hp
            obtain ⟨_, hrest⟩ := Prod.mk.injEq .. ▸ Option.some.inj hp
            rw [← hrest] at hall
            simp [hws] at hall
        have hne : (skipWs s.data).isEmpty = false := skipWs_not_nil_of_parse hp
        have hf : jsParseFloat s = JNum.fin x := by
          unfold jsParseFloat
          simp only [hinf, hp, htj]
        have hn : jsToNumber s = JNum.fin x := by
          unfold jsToNumber
          simp only [hne, hinf, hnd, hp, hall, htj]
          simp
        have htest : castTest (JNum.fin x) (JNum.fin x) = true := by
          simp only [castTest, decide_eq_true_eq]
          norm_num
        rw [hxq] at htest
        simp only [castId, hn, hf, hxq, htest, if_true]
      | inf b => rw [htj] at h; simp at h
      | nan => rw [htj] at h; simp at h

theorem castId_of_toNumber_nan {s : String}
    (h : jsToNumber s = JNum.nan) : castId (JSVal.str s) = JSVal.str s := by
  simp [castId, h, castTest]

theorem castId_of_parseFloat_nan {s : String}
    (h : jsParseFloat s = JNum.nan) : castId (JSVal.str s) = JSVal.str s := by
  cases hn : jsToNumber s <;> simp [castId, h, hn, castTest]

theorem castId_of_both_inf {s : String} {b : Bool}
    (h1 : jsToNumber s = JNum.inf b) (h2 : jsParseFloat s = JNum.inf b) :
    castId (JSVal.str s) = JSVal.str s := by
  cases b <;> simp [castId, h1, h2, castTest]

theorem castId_of_nonDecimal {s : String} {n : ℕ}
    (h : nonDecimalNum s = some n) : castId (JSVal.str s) = JSVal.num 0 := by
  unfold nonDecimalNum at h
  cases hp : parseNonDecimalCore (skipWs s.data) with
  | none => rw [hp] at h; simp at h
  | some pr =>
    obtain ⟨m, rest⟩ := pr
    rw [hp] at h
    cases hall : rest.all wsChar with
    | false => simp [hall] at h
    | true =>
      simp only [hall, if_true] at h
      simp at h
      obtain ⟨x, u, hteq, hws, hdig, hdot, he1, he2⟩ :=
        parseNonDecimalCore_shape hp
      have hdec : parseDecCore (skipWs s.data) = some (0, x :: u) := by
        rw [hteq]
        exact parseDecCore_zeroX hdig hdot he1 he2
      have hinf : parseInfinityLit (skipWs s.data) = none := by
        rw [hteq]
        exact parseInfinityLit_zero _
      have hne : (skipWs s.data).isEmpty = false := by rw [hteq]; rfl
      have hf0 : jsParseFloat s = JNum.fin 0 := by
        unfold jsParseFloat
        simp only [hinf, hdec]
        unfold toJNum
        have hd1 : ¬ doubleMax ≤ (0 : ℚ) := by norm_num [doubleMax]
        have hd2 : ¬ (0 : ℚ) ≤ -doubleMax := by norm_num [doubleMax]
        simp [hd1, hd2]
      have hn2 : jsToNumber s = toJNum (m : ℚ) := by
        unfold jsToNumber
        simp only [hne, hinf, hp, hall]
        simp
      have htest : castTest (toJNum (m : ℚ)) (JNum.fin 0) = true := by
        unfold toJNum
        split_ifs with hbig hneg
        · rfl
        · exfalso
          have hm0 : (0 : ℚ) ≤ (m : ℚ) := by positivity
          have hdm : (0 : ℚ) < doubleMax := by norm_num [doubleMax]
          linarith
        · simp only [castTest, decide_eq_true_eq]
          have hm0 : (0 : ℚ) ≤ (m : ℚ) := by positivity
          linarith
      simp only [castId, hn2, hf0, htest, if_true]

theorem decimalNum_four : decimalNum "4" = some 4 := by
  have h40 : parseDecCore (skipWs "4".data) = some (4, []) := by
    simp +decide [parseDecCore, parseSign, takeDigits, parseExponent,
      skipWs, wsChar, digitsVal, digitVal, pow10]
  have h4fin : toJNum 4 = JNum.fin 4 := by
    unfold toJNum
    have hd1 : ¬ doubleMax ≤ (4 : ℚ) := by norm_num [doubleMax]
    have hd2 : ¬ (4 : ℚ) ≤ -doubleMax := by norm_num [doubleMax]
    simp [hd1, hd2]
  unfold decimalNum
  rw [h40]
  simp [h4fin]

/-- C1 (counterexample): the wire identifier "0x10" is not a finite decimal
numeral, yet castId does not return it unchanged as an opaque string: the
implicit ToNumber coercion reads the hex literal (16), parseFloat reads
the decimal prefix 0, the test 16 - 0 + 1 >= 0 passes, and the numeric
value 0 comes back. -/
theorem castId_hex_cex :
    decimalNum "0x10" = none ∧ castId (JSVal.str "0x10") = JSVal.num 0 ∧
    castId (JSVal.str "0x10") ≠ JSVal.str "0x10" := by
  have hnd : nonDecimalNum "0x10" = some 16 := by
    simp +decide [nonDecimalNum, parseNonDecimalCore, takeRadixDigits,
      isRadixDigit, radixVal, radixDigitVal, skipWs, wsChar]
  have hc := castId_of_nonDecimal hnd
  refine ⟨?_, hc, by rw [hc]; simp⟩
  simp +decide [decimalNum, parseDecCore, parseSign, takeDigits,
    parseExponent, skipWs, wsChar]

/-- C1 (amended): a wire identifier string that is exactly a finite decimal
numeral is coerced by castId to its numeric value; a string that converts
to NaN on either side of the test (not numeric at all), or whose whole and
prefix conversions give the same infinity (an overflowing numeral such as
"1e999", or the Infinity keyword), is returned unchanged as an opaque
string; but a string in ToNumber's non-decimal integer forms (hex, octal,
binary) is coerced to the numeric value 0 of its parseFloat decimal prefix
rather than kept as a string; and the stored numeric id 4 and the wire
string "4" coerce to the same value. -/
theorem castId_coercion_amended (s : String) :
    (∀ q, decimalNum s = some q → castId (JSVal.str s) = JSVal.num q) ∧
    (jsToNumber s = JNum.nan → castId (JSVal.str s) = JSVal.str s) ∧
    (jsParseFloat s = JNum.nan → castId (JSVal.str s) = JSVal.str s) ∧
    (∀ b, jsToNumber s = JNum.inf b → jsParseFloat s = JNum.inf b →
      castId (JSVal.str s) = JSVal.str s) ∧
    (∀ n, nonDecimalNum s = some n → castId (JSVal.str s) = JSVal.num 0) ∧
    castId (JSVal.num 4) = castId (JSVal.str "4") := by
  refine ⟨fun q h => castId_of_decimalNum h,
    fun h => castId_of_toNumber_nan h,
    fun h => castId_of_parseFloat_nan h,
    fun b h1 h2 => castId_of_both_inf h1 h2,
    fun n h => castId_of_nonDecimal h, ?_⟩
  rw [castId_of_decimalNum decimalNum_four]
  rfl

/-- C4: after query parsing the limit option is always defined and lies in
the interval from 1 to maxLimit: a missing, non-numeric, zero or
over-maximum page[limit] value is replaced by the configured maxLimit. -/
theorem limit_always_clamped (maxLimit : ℕ) (hmax : 1 ≤ maxLimit)
    (qOffset qLimit : Option String) :
    (1 ≤ (attachPage maxLimit qOffset qLimit).limit ∧
      (attachPage maxLimit qOffset qLimit).limit ≤ maxLimit) ∧
    (qLimit = none → (attachPage maxLimit qOffset qLimit).limit = maxLimit) ∧
    (∀ v, qLimit = some v → absParseInt v = none →
      (attachPage maxLimit qOffset qLimit).limit = maxLimit) ∧
    (∀ v, qLimit = some v → absParseInt v = some 0 →
      (attachPage maxLimit qOffset qLimit).limit = maxLimit) ∧
    (∀ v n, qLimit = some v → absParseInt v = some n → maxLimit < n →
      (attachPage maxLimit qOffset qLimit).limit = maxLimit) := by
  refine ⟨?_, ?_, ?_, ?_, ?_⟩
  · cases qLimit with
    | none => simp [attachPage, checkLimit]; omega
    | some v =>
      cases hv : absParseInt v with
      | none => simp [attachPage, checkLimit, hv]; omega
      | some n =>
        by_cases h0 : n = 0
        · simp [attachPage, checkLimit, hv, h0]; omega
        · by_cases hbig : maxLimit < n
          · simp [attachPage, checkLimit, hv, h0, hbig]; omega
          · simp [attachPage, checkLimit, hv, h0, hbig]; omega
  · intro h; simp [attachPage, checkLimit, h]
  · intro v hv hnone; simp [attachPage, checkLimit, hv, hnone]
  · intro v hv h0; simp [attachPage, checkLimit, hv, h0]
  · intro v n hv hn hbig
    have h0 : ¬ n = 0 := by omega
    simp [attachPage, checkLimit, hv, hn, h0, hbig]

theorem limit_always_clamped_check :
    1 ≤ (attachPage 1000 none (some "abc")).limit ∧
      (attachPage 1000 none (some "abc")).limit ≤ 1000 :=
  (limit_always_clamped 1000 (by norm_num) none (some "abc")).1

/-- C10: a negative page[offset] or page[limit] value does not fail: the
stored option is the absolute value of the parsed integer, so a query with
value -5 behaves exactly like one with value 5. -/
theorem negative_page_values_absolute (m n : ℕ) (s t : String)
    (qLimit : Option String)
    (hs : jsParseInt s = some (-(n : ℤ))) (ht : jsParseInt t = some (n : ℤ)) :
    absParseInt s = some n ∧ absParseInt t = some n ∧
    (attachPage m (some s) qLimit).offset = some (some n) ∧
    attachPage m (some s) qLimit = attachPage m (some t) qLimit := by
  have habs : absParseInt s = some n := by simp [absParseInt, hs]
  have habt : absParseInt t = some n := by simp [absParseInt, ht]
  refine ⟨habs, habt, ?_, ?_⟩
  · simp [attachPage, habs]
  · simp [attachPage, habs, habt]

theorem negative_page_values_absolute_check :
    absParseInt "-5" = some 5 ∧ absParseInt "5" = some 5 ∧
    (attachPage 1000 (some "-5") none).offset = some (some 5) ∧
    attachPage 1000 (some "-5") none = attachPage 1000 (some "5") none :=
  negative_page_values_absolute 1000 5 "-5" "5" none
    (by simp +decide [jsParseInt, parseSignInt, skipWs, takeDigits,
      digitsVal, digitVal])
    (by simp +decide [jsParseInt, parseSignInt, skipWs, takeDigits,
      digitsVal, digitVal])

/-- C2: on a collection find whose reported count exceeds the effective
limit the top-level links hold first and last, next exactly when
offset + limit < count, and prev exactly when offset >= limit; when the
count does not exceed the limit no pagination link is emitted. -/
theorem showResponse_pagination (ctx : ShowCtx) (records : List Record)
    (c : ℕ) (hrel : ctx.relationship = false) (hids : ctx.ids = none)
    (hm : ctx.method = Method.find) (hrf : ctx.relatedField = none) :
    ∃ d, showResponse ctx records (some c) = ShowResult.doc d ∧
      (ctx.options.limit < c →
        d.links.first = some 0 ∧ d.links.last.isSome = true ∧
        (d.links.next.isSome = true ↔
          ctx.options.limit + offsetOrZero ctx.options.offset < c) ∧
        (d.links.prev.isSome = true ↔
          ctx.options.limit ≤ offsetOrZero ctx.options.offset)) ∧
      (c ≤ ctx.options.limit → d.links = PageLinks.empty) := by
  simp only [showResponse, hrel, hids, hm, hrf, idsPresent]
  simp
  refine ⟨?_, ?_⟩
  · intro hc
    simp only [if_pos hc]
    refine ⟨by simp, by simp, ?_, ?_⟩
    · by_cases hn : ctx.options.limit + offsetOrZero ctx.options.offset < c <;>
        simp [hn]
    · by_cases hp : ctx.options.limit ≤ offsetOrZero ctx.options.offset <;>
        simp [hp]
  · intro h1 h2
    exact absurd h2 (by omega)

theorem showResponse_pagination_check :
    ∃ d, showResponse collCtx [] (some 17) = ShowResult.doc d ∧
      d.links.first = some 0 ∧ d.links.next.isSome = true ∧
      d.links.prev.isSome = true := by
  obtain ⟨d, hd, hbig, _⟩ := showResponse_pagination collCtx [] 17 rfl rfl rfl rfl
  have hc : collCtx.options.limit < 17 := by norm_num [collCtx]
  obtain ⟨h1, _, h3, h4⟩ := hbig hc
  exact ⟨d, hd, h1, h3.mpr (by norm_num [collCtx, offsetOrZero]),
    h4.mpr (by norm_num [collCtx, offsetOrZero])⟩

/-- C3: on a non-traversal find for exactly one route identifier, and on a
create of exactly one record, the document data member is a single
resource object; on a find for two or more identifiers with all records
found it is an array of that length. -/
theorem showResponse_singular (ctx : ShowCtx) (count : Option ℕ)
    (hrel : ctx.relationship = false) (hrf : ctx.relatedField = none)
    (hot : ctx.originalType = none) :
    (∀ i r rs, ctx.method = Method.find → ctx.ids = some [i] →
      ∃ d, showResponse ctx (r :: rs) count = ShowResult.doc d ∧
        d.data = DataMember.one r) ∧
    (∀ r, ctx.method = Method.create → ctx.ids = none →
      ∃ d, showResponse ctx [r] count = ShowResult.doc d ∧
        d.data = DataMember.one r) ∧
    (∀ l records, ctx.method = Method.find → ctx.ids = some l →
      2 ≤ l.length → records.length = l.length →
      ∃ d, showResponse ctx records count = ShowResult.doc d ∧
        d.data = DataMember.many records ∧ records.length = l.length) := by
  refine ⟨?_, ?_, ?_⟩
  · intro i r rs hm hids
    simp [showResponse, hrel, hrf, hot, hm, hids, idsPresent, idsCount1]
  · intro r hm hids
    simp [showResponse, hrel, hrf, hot, hm, hids, idsPresent, idsCount1]
  · intro l records hm hids hlen hrlen
    obtain ⟨r, rs, rfl⟩ : ∃ r rs, records = r :: rs := by
      cases records with
      | nil => simp at hrlen; omega
      | cons a b => exact ⟨a, b, rfl⟩
    have hne : ¬ l.length = 1 := by omega
    simp [showResponse, hrel, hrf, hot, hm, hids, idsPresent, idsCount1,
      hne, hrlen]

theorem showResponse_singular_check :
    ∃ d, showResponse singleCtx [{ id := JSVal.num 1 }] none =
      ShowResult.doc d ∧ d.data = DataMember.one { id := JSVal.num 1 } :=
  (showResponse_singular singleCtx none rfl rfl rfl).1
    (JSVal.num 1) { id := JSVal.num 1 } [] rfl rfl

/-- C9: a relationship-entity route request whose method is not find gets a
response with no payload body, whatever the store reported in
updateModified. -/
theorem relationship_update_no_payload (ctx : ShowCtx) (records : List Record)
    (count : Option ℕ) (hrel : ctx.relationship = true)
    (hone : ctx.originalIds.length ≤ 1) (hm : ctx.method ≠ Method.find) :
    showResponse ctx records count = ShowResult.noPayload := by
  have hlt : ¬ 1 < ctx.originalIds.length := by omega
  simp [showResponse, showRelationship, hrel, hlt, hm]

theorem relationship_update_no_payload_check :
    showResponse relPatchCtx [] none = ShowResult.noPayload :=
  relationship_update_no_payload relPatchCtx [] none rfl (by norm_num [relPatchCtx])
    (by decide)

theorem castLinkIds_ne_notFound (nt : String → String) (t : String)
    (os : List LinkObj) : castLinkIds nt t os ≠ Except.error JErr.notFound := by
  induction os with
  | nil => simp [castLinkIds]
  | cons o os ih =>
    simp only [castLinkIds]
    cases o.type with
    | none => simp
    | some u =>
      by_cases hu : nt u = t
      · simp only [hu, if_pos rfl]
        cases o.id with
        | none => simp
        | some i =>
          cases h : castLinkIds nt t os with
          | error e =>
            rw [h] at ih
            simp [Except.map, h]
            intro hc
            exact ih (by rw [hc])
          | ok ids => simp [Except.map, h]
      · simp [hu]

theorem castLinkIds_ok_of_valid (nt : String → String) (t : String)
    (os : List LinkObj)
    (h : ∀ o ∈ os, o.id.isSome ∧ ∃ u, o.type = some u ∧ nt u = t) :
    ∃ ids, castLinkIds nt t os = Except.ok ids := by
  induction os with
  | nil => exact ⟨[], rfl⟩
  | cons o os ih =>
    obtain ⟨hid, u, hu, hnt⟩ := h o (List.mem_cons_self o os)
    obtain ⟨i, hi⟩ := Option.isSome_iff_exists.mp hid
    obtain ⟨ids, hids⟩ := ih (fun o' ho' => h o' (List.mem_cons_of_mem o ho'))
    exact ⟨castId i :: ids, by simp [castLinkIds, hu, hnt, hi, hids, Except.map]⟩

/-- C8: a relationship-entity route with more than one owning identifier
fails, as a bad-request when showing the relationship and as not-found when
updating it; with exactly one owning identifier neither error occurs. -/
theorem relationship_multi_id_errors (nt : String → String) (ctx : ShowCtx)
    (uctx : RelUpdCtx) (records : List Record) :
    (1 < ctx.originalIds.length →
      showRelationship ctx records = ShowResult.err JErr.badRequest) ∧
    (1 < uctx.originalIds.length →
      updateRelationship nt uctx = Except.error JErr.notFound) ∧
    (ctx.originalIds.length = 1 →
      ∀ e, showRelationship ctx records ≠ ShowResult.err e) ∧
    (uctx.originalIds.length = 1 →
      updateRelationship nt uctx ≠ Except.error JErr.notFound) := by
  refine ⟨?_, ?_, ?_, ?_⟩
  · intro h; simp [showRelationship, h]
  · intro h; simp [updateRelationship, h]
  · intro h e
    have hlt : ¬ 1 < ctx.originalIds.length := by omega
    by_cases hf : ctx.method = Method.find
    · cases hr : ctx.registryIsArray with
      | true => simp [showRelationship, hlt, hf, hr]
      | false => cases records <;> simp [showRelationship, hlt, hf, hr]
    · simp [showRelationship, hlt, hf]
  · intro h
    have hlt : ¬ 1 < uctx.originalIds.length := by omega
    simp only [updateRelationship, hlt, if_false]
    by_cases hpp : !uctx.isArray && uctx.originalMethod.isSome
    · simp [hpp]
    · simp only [hpp, Bool.false_eq_true, if_false]
      cases ha : uctx.isArray with
      | false =>
        cases hp : uctx.payloadData with
        | objData o =>
          cases hc : castLinkIds nt uctx.type [o] with
          | error e =>
            have hne := castLinkIds_ne_notFound nt uctx.type [o]
            rw [hc] at hne
            simp [Except.map, hc]
            intro hce
            exact hne (by rw [hce])
          | ok ids => simp [Except.map, hc]
        | arrData os => simp
        | nullData => simp
      | true =>
        cases hp : uctx.payloadData with
        | objData o => simp
        | arrData os =>
          cases hc : castLinkIds nt uctx.type os with
          | error e =>
            have hne := castLinkIds_ne_notFound nt uctx.type os
            rw [hc] at hne
            simp [Except.map, hc]
            intro hce
            exact hne (by rw [hce])
          | ok ids => simp [Except.map, hc]
        | nullData => simp

/-- C7: a relationship-entity update that arrived through the POST or
DELETE remap fails as a method error when the link field is to-one, and
produces a push or pull update respectively when it is to-many. -/
theorem updateRelationship_toOne_remap (nt : String → String)
    (uctx : RelUpdCtx) (oid : JSVal) (m : Method)
    (hids : uctx.originalIds = [oid]) (hm : uctx.originalMethod = some m)
    (hcd : m = Method.create ∨ m = Method.delete) :
    (uctx.isArray = false →
      updateRelationship nt uctx = Except.error JErr.methodError) ∧
    (∀ os, uctx.isArray = true → uctx.payloadData = PayloadData.arrData os →
      (∀ o ∈ os, o.id.isSome ∧ ∃ u, o.type = some u ∧ nt u = uctx.type) →
      ∃ ids, updateRelationship nt uctx =
        Except.ok [{ id := some oid,
                     op := if m = Method.create then RelOp.push else RelOp.pull,
                     field := uctx.relatedField,
                     target := RelTarget.many ids }]) := by
  constructor
  · intro ha
    have hlt : ¬ 1 < uctx.originalIds.length := by rw [hids]; simp
    simp [updateRelationship, hlt, ha, hm]
  · intro os ha hp hvalid
    have hlt : ¬ 1 < uctx.originalIds.length := by rw [hids]; simp
    obtain ⟨ids, hok⟩ := castLinkIds_ok_of_valid nt uctx.type os hvalid
    refine ⟨ids, ?_⟩
    have hhead : uctx.originalIds.head? = some oid := by rw [hids]; rfl
    rcases hcd with hcr | hde
    · subst hcr
      simp [updateRelationship, hlt, ha, hm, hp, hok, Except.map, hhead]
    · subst hde
      simp [updateRelationship, hlt, ha, hm, hp, hok, Except.map, hhead]

theorem updateRelationship_toOne_remap_check :
    updateRelationship (fun x => x) relPushCtx =
      Except.error JErr.methodError :=
  (updateRelationship_toOne_remap (fun x => x) relPushCtx (JSVal.num 2)
    Method.create rfl rfl (Or.inl rfl)).1 rfl

/-- C5: a filter query key fails as a bad-request exactly when its
(inflected) field is not declared in the routed type's field definition or
its bracketed modifier is present but none of exists, min, max; otherwise
filter parsing raises no error. -/
theorem filter_parse_errors {V : Type} (inflect : String → String)
    (declared : List String) (castValue : String → V) (k : FilterKey)
    (value : String) :
    ((∃ e, parseFilterKey inflect declared castValue k value = Except.error e)
      ↔ (inflect k.field ∉ declared ∨
        ∃ m, k.modifier = some m ∧ m ≠ "exists" ∧ m ≠ "min" ∧ m ≠ "max")) ∧
    ∀ e, parseFilterKey inflect declared castValue k value = Except.error e →
      e = JErr.badRequest := by
  by_cases hf : inflect k.field ∈ declared
  · cases hk : k.modifier with
    | none => simp [parseFilterKey, hf, hk]
    | some m =>
      by_cases h1 : m = "exists"
      · simp [parseFilterKey, hf, hk, h1]
      · by_cases h2 : m = "min"
        · simp [parseFilterKey, hf, hk, h1, h2]
        · by_cases h3 : m = "max"
          · simp [parseFilterKey, hf, hk, h1, h2, h3]
          · simp [parseFilterKey, hf, hk, h1, h2, h3]
  · simp [parseFilterKey, hf]


theorem expandNested_append (p : List String) :
    ∀ (i : ℕ) (arr : List (List String)),
      ∃ ext, expandNested p i arr = arr ++ ext := by
  intro i
  induction i with
  | zero => intro arr; exact ⟨[], by simp [expandNested]⟩
  | succ i ih =>
    intro arr
    by_cases hj : p.take (i + 1) ∈ arr
    · obtain ⟨ext, he⟩ := ih arr
      exact ⟨ext, by rw [expandNested, if_pos hj]; exact he⟩
    · obtain ⟨ext, he⟩ := ih (arr ++ [p.take (i + 1)])
      refine ⟨[p.take (i + 1)] ++ ext, ?_⟩
      rw [expandNested, if_neg hj, he, List.append_assoc]

theorem mem_expandNested (p : List String) (i : ℕ) (arr : List (List String))
    (x : List String) (hx : x ∈ arr) : x ∈ expandNested p i arr := by
  obtain ⟨ext, he⟩ := expandNested_append p i arr
  rw [he]
  exact List.mem_append_left _ hx

theorem take_mem_expandNested (p : List String) :
    ∀ (i : ℕ) (arr : List (List String)) (k : ℕ), 1 ≤ k → k ≤ i →
      p.take k ∈ expandNested p i arr := by
  intro i
  induction i with
  | zero => intro arr k h1 h2; omega
  | succ i ih =>
    intro arr k h1 h2
    rw [expandNested]
    by_cases hk : k = i + 1
    · subst hk
      by_cases hj : p.take (i + 1) ∈ arr
      · rw [if_pos hj]; exact mem_expandNested _ _ _ _ hj
      · rw [if_neg hj]; exact mem_expandNested _ _ _ _ (by simp)
    · have hki : k ≤ i := by omega
      by_cases hj : p.take (i + 1) ∈ arr
      · rw [if_pos hj]; exact ih arr k h1 hki
      · rw [if_neg hj]; exact ih _ k h1 hki

theorem includeLoop_append :
    ∀ (fuel : ℕ) (arr : List (List String)) (idx : ℕ),
      ∃ ext, includeLoop fuel arr idx = arr ++ ext := by
  intro fuel
  induction fuel with
  | zero => intro arr idx; exact ⟨[], by simp [includeLoop]⟩
  | succ fuel ih =>
    intro arr idx
    rw [includeLoop]
    cases hg : arr[idx]? with
    | none => exact ⟨[], by simp⟩
    | some p =>
      obtain ⟨ext1, he1⟩ := expandNested_append p (p.length - 1) arr
      obtain ⟨ext2, he2⟩ := ih (expandNested p (p.length - 1) arr) (idx + 1)
      refine ⟨ext1 ++ ext2, ?_⟩
      show includeLoop fuel (expandNested p (p.length - 1) arr) (idx + 1) = _
      rw [he2, he1, List.append_assoc]

theorem mem_includeLoop (fuel : ℕ) (arr : List (List String)) (idx : ℕ)
    (x : List String) (hx : x ∈ arr) : x ∈ includeLoop fuel arr idx := by
  obtain ⟨ext, he⟩ := includeLoop_append fuel arr idx
  rw [he]
  exact List.mem_append_left _ hx

theorem includeLoop_processes :
    ∀ (fuel : ℕ) (arr : List (List String)) (idx j : ℕ) (hij : idx ≤ j)
      (hj : j < arr.length), j - idx < fuel → ∀ k : ℕ, 1 ≤ k →
      k < (arr.get ⟨j, hj⟩).length →
      (arr.get ⟨j, hj⟩).take k ∈ includeLoop fuel arr idx := by
  intro fuel
  induction fuel with
  | zero => intro arr idx j _ hj hfuel; omega
  | succ fuel ih =>
    intro arr idx j hij hj hfuel k hk1 hk2
    have hidx : idx < arr.length := Nat.lt_of_le_of_lt hij hj
    rw [includeLoop]
    have hg : arr[idx]? = some (arr.get ⟨idx, hidx⟩) := by
      rw [List.getElem?_eq_getElem hidx, List.get_eq_getElem]
    rw [hg]
    by_cases hje : j = idx
    · subst hje
      apply mem_includeLoop
      apply take_mem_expandNested
      · exact hk1
      · omega
    · have hij2 : idx + 1 ≤ j := by omega
      obtain ⟨ext, he⟩ :=
        expandNested_append (arr.get ⟨idx, hidx⟩)
          ((arr.get ⟨idx, hidx⟩).length - 1) arr
      have hj2 : j < (expandNested (arr.get ⟨idx, hidx⟩)
          ((arr.get ⟨idx, hidx⟩).length - 1) arr).length := by
        rw [he, List.length_append]
        omega
      have hsame : (expandNested (arr.get ⟨idx, hidx⟩)
          ((arr.get ⟨idx, hidx⟩).length - 1) arr).get ⟨j, hj2⟩ =
          arr.get ⟨j, hj⟩ := by
        have e1 : (expandNested (arr.get ⟨idx, hidx⟩)
            ((arr.get ⟨idx, hidx⟩).length - 1) arr)[j]? = arr[j]? := by
          rw [he]
          exact List.getElem?_append_left hj
        rw [List.getElem?_eq_getElem hj2, List.getElem?_eq_getElem hj] at e1
        simpa using e1
      have := ih (expandNested (arr.get ⟨idx, hidx⟩)
          ((arr.get ⟨idx, hidx⟩).length - 1) arr) (idx + 1) j hij2 hj2
          (by omega) k hk1 (by rw [hsame]; exact hk2)
      rw [hsame] at this
      exact this


theorem expandNested_fresh (p : List String) :
    ∀ (i : ℕ) (base ext : List (List String)),
      (∀ q, q ∉ base → ext.count q ≤ 1) →
      ∃ ext2, expandNested p i (base ++ ext) = base ++ ext2 ∧
        ∀ q, q ∉ base → ext2.count q ≤ 1 := by
  intro i
  induction i with
  | zero => intro base ext h; exact ⟨ext, by rw [expandNested], h⟩
  | succ i ih =>
    intro base ext h
    rw [expandNested]
    by_cases hj : p.take (i + 1) ∈ base ++ ext
    · rw [if_pos hj]
      exact ih base ext h
    · rw [if_neg hj, List.append_assoc]
      apply ih
      intro q hq
      rw [List.count_append]
      rcases eq_or_ne q (p.take (i + 1)) with heq | hne
      · have h0 : ext.count q = 0 := by
          rw [List.count_eq_zero]
          intro hmem
          rw [heq] at hmem
          exact hj (List.mem_append_right _ hmem)
        have h1 : List.count q [p.take (i + 1)] = 1 := by
          rw [heq]
          simp
        omega
      · have h1 := h q hq
        have h2 : List.count q [p.take (i + 1)] = 0 := by
          rw [List.count_eq_zero]
          simp [hne]
        omega

theorem includeLoop_fresh :
    ∀ (fuel : ℕ) (base ext : List (List String)) (idx : ℕ),
      (∀ q, q ∉ base → ext.count q ≤ 1) →
      ∃ ext2, includeLoop fuel (base ++ ext) idx = base ++ ext2 ∧
        ∀ q, q ∉ base → ext2.count q ≤ 1 := by
  intro fuel
  induction fuel with
  | zero => intro base ext idx h; exact ⟨ext, by rw [includeLoop], h⟩
  | succ fuel ih =>
    intro base ext idx h
    rw [includeLoop]
    cases hg : (base ++ ext)[idx]? with
    | none => exact ⟨ext, rfl, h⟩
    | some p =>
      obtain ⟨ext2, he2, h2⟩ := expandNested_fresh p (p.length - 1) base ext h
      show ∃ ext2', includeLoop fuel
        (expandNested p (p.length - 1) (base ++ ext)) (idx + 1) =
          base ++ ext2' ∧ ∀ q, q ∉ base → ext2'.count q ≤ 1
      rw [he2]
      exact ih base ext2 (idx + 1) h2

/-- C6 (amended): every strict ancestor of every truncated requested path
is present in the final include set, the requested paths open the set in
order, and any path not among the requested ones occurs at most once (it
is pushed only when not already present); a requested path repeated by the
client keeps its duplicates, so "exactly once" can fail for an ancestor
that is itself a repeated request. -/
theorem include_ancestor_expansion (inflect : String → String) (lim : ℕ)
    (s : String) (p : List String) (k : ℕ)
    (hp : p ∈ includeInit inflect lim s) (hk1 : 1 ≤ k) (hk2 : k < p.length) :
    p.take k ∈ attachInclude inflect lim s ∧
    (∃ ext, attachInclude inflect lim s = includeInit inflect lim s ++ ext) ∧
    (∀ q, q ∉ includeInit inflect lim s →
      (attachInclude inflect lim s).count q ≤ 1) := by
  obtain ⟨ext2, he, hcount⟩ := includeLoop_fresh
    ((includeInit inflect lim s).length +
      ((includeInit inflect lim s).map List.length).sum)
    (includeInit inflect lim s) [] 0 (by simp)
  rw [List.append_nil] at he
  have hatt : attachInclude inflect lim s =
      includeLoop ((includeInit inflect lim s).length +
        ((includeInit inflect lim s).map List.length).sum)
        (includeInit inflect lim s) 0 := rfl
  refine ⟨?_, ⟨ext2, by rw [hatt, he]⟩, ?_⟩
  · obtain ⟨n, hget⟩ := List.mem_iff_get.mp hp
    rw [hatt]
    have := includeLoop_processes
      ((includeInit inflect lim s).length +
        ((includeInit inflect lim s).map List.length).sum)
      (includeInit inflect lim s) 0 n.val (Nat.zero_le _) n.isLt
      (by have := n.isLt; omega) k hk1 (by rw [Fin.eta n n.isLt, hget]; exact hk2)
    rw [Fin.eta n n.isLt, hget] at this
    exact this
  · intro q hq
    rw [hatt, he, List.count_append]
    have h0 : (includeInit inflect lim s).count q = 0 :=
      List.count_eq_zero.mpr hq
    have h1 := hcount q hq
    omega

theorem include_duplicate_cex :
    (["a", "b"] ∈ includeInit (fun x => x) 3 "a,a,a.b") ∧
    ["a"] = ["a", "b"].take 1 ∧
    (attachInclude (fun x => x) 3 "a,a,a.b").count ["a"] = 2 := by
  refine ⟨?_, rfl, ?_⟩ <;> decide

theorem include_ancestor_check :
    ["a"] ∈ attachInclude (fun x => x) 3 "a.b.c" :=
  have h := include_ancestor_expansion (fun x => x) 3 "a.b.c" ["a", "b", "c"] 1
    (by decide) (by decide) (by decide)
  h.1

end FortuneJsonApi
